import Mathlib

/-!
Verification development for the smart-select / bracket-expansion engine of
`src/vs/editor/contrib/smartSelect/common/smartSelect.ts`.

The file embeds the two components of that source file:

* `ExpandBracketController.run` (per-selection bracket expansion), embedded as
  `expandSelection` over an abstract bracket oracle `Model`
  (`findPrevBracket`, `findNextBracket`, `matchBracket` live in the editor
  model, outside this repository's source, and are treated as oracle
  functions; concrete instances used in witnesses are modelled from the spec).
* `SmartSelectController.run` (grow/shrink selection chain), embedded as
  `runStep` over a chain zipper `ChainZipper` (the source's doubly linked
  `State` nodes, read from the current node: `prevs` are the nodes reachable
  via `previous`, `nexts` the nodes reachable via `next`).

Geometric primitives (`Position`, `Range`, `Selection`) are embedded from
vscode's core classes, which the source uses for all comparisons.
-/

/-- Position as in vscode core: 1-based (lineNumber, column). -/
structure Position where
  lineNumber : Nat
  column : Nat
deriving DecidableEq, Repr

/-- Strict order on positions, lexicographic by (lineNumber, column);
embeds `Position.isBefore`. -/
def Position.isBefore (a b : Position) : Bool :=
  if a.lineNumber < b.lineNumber then true
  else if b.lineNumber < a.lineNumber then false
  else decide (a.column < b.column)

/-- Non-strict order on positions; embeds `Position.isBeforeOrEqual`. -/
def Position.isBeforeOrEqual (a b : Position) : Bool :=
  if a.lineNumber < b.lineNumber then true
  else if b.lineNumber < a.lineNumber then false
  else decide (a.column ≤ b.column)

/-- Position equality test; embeds `Position.equals`. -/
def Position.equals (a b : Position) : Bool :=
  a.lineNumber == b.lineNumber && a.column == b.column

/-- Range as in vscode core: (startLineNumber, startColumn, endLineNumber,
endColumn). -/
structure Range where
  startLineNumber : Nat
  startColumn : Nat
  endLineNumber : Nat
  endColumn : Nat
deriving DecidableEq, Repr

/-- Embeds `Range.getStartPosition`. -/
def Range.getStartPosition (r : Range) : Position :=
  ⟨r.startLineNumber, r.startColumn⟩

/-- Embeds `Range.getEndPosition`. -/
def Range.getEndPosition (r : Range) : Position :=
  ⟨r.endLineNumber, r.endColumn⟩

/-- Embeds `Range.containsPosition` (inclusive at both boundaries, with the
column checks applying on the boundary lines), mirroring the vscode
implementation's three rejection guards. -/
def Range.containsPosition (range : Range) (position : Position) : Bool :=
  if position.lineNumber < range.startLineNumber || position.lineNumber > range.endLineNumber then
    false
  else if position.lineNumber == range.startLineNumber && position.column < range.startColumn then
    false
  else if position.lineNumber == range.endLineNumber && position.column > range.endColumn then
    false
  else
    true

/-- Embeds `Range.containsRange` (inclusive containment), mirroring the vscode
implementation's four rejection guards. -/
def Range.containsRange (range : Range) (otherRange : Range) : Bool :=
  if otherRange.startLineNumber < range.startLineNumber || otherRange.endLineNumber < range.startLineNumber then
    false
  else if otherRange.startLineNumber > range.endLineNumber || otherRange.endLineNumber > range.endLineNumber then
    false
  else if otherRange.startLineNumber == range.startLineNumber && otherRange.startColumn < range.startColumn then
    false
  else if otherRange.endLineNumber == range.endLineNumber && otherRange.endColumn > range.endColumn then
    false
  else
    true

/-- Embeds `Range.equalsRange`. -/
def Range.equalsRange (a b : Range) : Bool :=
  a.startLineNumber == b.startLineNumber && a.startColumn == b.startColumn &&
  a.endLineNumber == b.endLineNumber && a.endColumn == b.endColumn

/-- Selection as in vscode core: an anchor (selectionStart) plus an active
position; treated as a Range through `getStartPosition` / `getEndPosition`. -/
structure Selection where
  selectionStartLineNumber : Nat
  selectionStartColumn : Nat
  positionLineNumber : Nat
  positionColumn : Nat
deriving DecidableEq, Repr

/-- The anchor end of a selection. -/
def Selection.anchor (s : Selection) : Position :=
  ⟨s.selectionStartLineNumber, s.selectionStartColumn⟩

/-- The active end of a selection. -/
def Selection.active (s : Selection) : Position :=
  ⟨s.positionLineNumber, s.positionColumn⟩

/-- Embeds `Selection.getStartPosition`: the earlier of anchor and active
position (vscode normalizes in the `Selection` constructor). -/
def Selection.getStartPosition (s : Selection) : Position :=
  if s.active.isBefore s.anchor then s.active else s.anchor

/-- Embeds `Selection.getEndPosition`: the later of anchor and active
position. -/
def Selection.getEndPosition (s : Selection) : Position :=
  if s.active.isBefore s.anchor then s.anchor else s.active

/-- Embeds `IFoundBracket`: a bracket token with its range and an open/close
tag, as returned by `findPrevBracket` / `findNextBracket`. -/
structure FoundBracket where
  range : Range
  isOpen : Bool
deriving DecidableEq, Repr

/-- The bracket oracle of the editor model used by `ExpandBracketController.run`
(`model.findPrevBracket`, `model.findNextBracket`, `model.matchBracket`).
These live outside this repository's source file; per the spec,
`findPrevBracket`/`findNextBracket` return the nearest bracket token
before/after the position or absence, and `matchBracket` returns the matched
pair's two ranges or absence. -/
structure Model where
  findPrevBracket : Position → Option FoundBracket
  findNextBracket : Position → Option FoundBracket
  matchBracket : Position → Option (Range × Range)

/-- The `Selection` built from a match pair's outer boundaries:
`new Selection(m[0].startLineNumber, m[0].startColumn, m[1].endLineNumber,
m[1].endColumn)` as it appears in the source. -/
def selOuter (m : Range × Range) : Selection :=
  ⟨m.1.startLineNumber, m.1.startColumn, m.2.endLineNumber, m.2.endColumn⟩

/-- The `Selection` built from a match pair's inner boundaries:
`new Selection(m[0].endLineNumber, m[0].endColumn, m[1].startLineNumber,
m[1].startColumn)` as it appears in the source. -/
def selInner (m : Range × Range) : Selection :=
  ⟨m.1.endLineNumber, m.1.endColumn, m.2.startLineNumber, m.2.startColumn⟩

/-- The left balanced outward scan of `ExpandBracketController.run`
(lines 229-238): a do-while loop that repeatedly takes `findPrevBracket` of
`currentPosition`, moves `currentPosition` to the found bracket's start, and
updates `setCount` (+1 for a closing bracket, -1 for an opening one); it
stops when no bracket is found (result `some none`) or when `setCount` drops
below zero (result `some (some b)` for the bracket just processed).
The `fuel` argument bounds the number of iterations; `none` means the fuel
ran out before the loop exited. -/
def scanPrev (m : Model) : Nat → Position → Int → Option (Option FoundBracket)
  | 0, _, _ => none
  | fuel + 1, currentPosition, setCount =>
    match m.findPrevBracket currentPosition with
    | none => some none
    | some prevBracket =>
      let setCount' := if !prevBracket.isOpen then setCount + 1 else setCount - 1
      if 0 ≤ setCount' then
        scanPrev m fuel prevBracket.range.getStartPosition setCount'
      else
        some (some prevBracket)

/-- The right balanced outward scan of `ExpandBracketController.run`
(lines 240-250), symmetric to `scanPrev`: `findNextBracket`, move to the
found bracket's end, `setCount` +1 for an opening bracket and -1 for a
closing one. -/
def scanNext (m : Model) : Nat → Position → Int → Option (Option FoundBracket)
  | 0, _, _ => none
  | fuel + 1, currentPosition, setCount =>
    match m.findNextBracket currentPosition with
    | none => some none
    | some nextBracket =>
      let setCount' := if nextBracket.isOpen then setCount + 1 else setCount - 1
      if 0 ≤ setCount' then
        scanNext m fuel nextBracket.range.getEndPosition setCount'
      else
        some (some nextBracket)

/-- The tail of `ExpandBracketController.run` after both scans
(lines 252-291): if neither scan found a bracket, return the selection
unchanged; otherwise resolve each found bracket via `matchBracket` from its
start position, choose `bracketsToSelect` (the right match if the left one is
absent, the left match if the right one is absent; with both present the
right match exactly when `matchPrev[1].getEndPosition().isBefore(
matchNext[0].getEndPosition())`), and return the inner-boundary selection for
the left match, the outer-boundary selection for the right match, or the
original selection if neither resolved. The final `else` arm of the source's
comparison chain (line 270) is unreachable and mirrored as the last arm. -/
def scanStage (m : Model) (fuel : Nat) (selection : Selection) : Option Selection :=
  match scanPrev m fuel selection.getStartPosition 0 with
  | none => none
  | some prevBracket =>
    match scanNext m fuel selection.getEndPosition 0 with
    | none => none
    | some nextBracket =>
      match prevBracket, nextBracket with
      | none, none => some selection
      | _, _ =>
        let matchPrev := match prevBracket with
          | some pb => m.matchBracket pb.range.getStartPosition
          | none => none
        let matchNext := match nextBracket with
          | some nb => m.matchBracket nb.range.getStartPosition
          | none => none
        match matchPrev, matchNext with
        | none, none => some selection
        | none, some mn => some (selOuter mn)
        | some mp, none => some (selInner mp)
        | some mp, some mn =>
          if mp.2.getEndPosition.isBefore mn.1.getEndPosition then
            some (selOuter mn)
          else if !(mp.2.getEndPosition.isBefore mn.1.getEndPosition) then
            some (selInner mp)
          else
            some (selOuter mp)

/-- Rules 2 and 3 of `ExpandBracketController.run` (lines 201-227), falling
through to the balanced scans: resolve `matchBracket` at both selection ends;
if both resolve, `matchPrev[0]` equals `matchNext[1]` as a range, and
`matchPrev[0]`'s start differs from the selection start, return the
outer-boundary selection of `matchPrev`; otherwise, for a caret
(start = end), return the outer-boundary selection of whichever of
`matchPrev` / `matchNext` resolves (left first); otherwise run the scans. -/
def expandRest (m : Model) (fuel : Nat) (selection : Selection) : Option Selection :=
  let originalStartPosition := selection.getStartPosition
  let originalEndPosition := selection.getEndPosition
  let matchPrev := m.matchBracket originalStartPosition
  let matchNext := m.matchBracket originalEndPosition
  let rule2 : Option Selection :=
    match matchPrev, matchNext with
    | some mp, some mn =>
      if mp.1.equalsRange mn.2 && !(mp.1.getStartPosition.equals originalStartPosition) then
        some (selOuter mp)
      else
        none
    | _, _ => none
  match rule2 with
  | some s => some s
  | none =>
    if originalStartPosition.equals originalEndPosition then
      match matchPrev with
      | some mp => some (selOuter mp)
      | none =>
        match matchNext with
        | some mn => some (selOuter mn)
        | none => scanStage m fuel selection
    else
      scanStage m fuel selection

/-- The whole per-selection body of `ExpandBracketController.run`
(lines 178-291). Rule 1 (lines 182-199): if the nearest previous bracket's
range ends exactly at the selection start and `matchBracket` at that
bracket's start resolves, return the outer-boundary selection when the
bracket is an opening one and the inner-boundary selection when it is a
closing one; in every other case (no previous bracket, not adjacent, or an
unmatchable adjacent bracket) fall through to `expandRest`.
Returns `none` only when `fuel` is insufficient for the scans. -/
def expandSelection (m : Model) (fuel : Nat) (selection : Selection) : Option Selection :=
  match m.findPrevBracket selection.getStartPosition with
  | some prevBracket =>
    if prevBracket.range.getEndPosition.equals selection.getStartPosition then
      match m.matchBracket prevBracket.range.getStartPosition with
      | some matchPrevBracket =>
        if prevBracket.isOpen then
          some (selOuter matchPrevBracket)
        else
          some (selInner matchPrevBracket)
      | none => expandRest m fuel selection
    else
      expandRest m fuel selection
  | none => expandRest m fuel selection

/-- Picks the bracket with the latest end position from a list (first one on
ties as they are scanned left to right). Helper for `findPrevIn`. -/
def maxByEnd : List FoundBracket → Option FoundBracket
  | [] => none
  | b :: t =>
    match maxByEnd t with
    | none => some b
    | some c =>
      if c.range.getEndPosition.isBefore b.range.getEndPosition then some b else some c

/-- Picks the bracket with the earliest start position from a list. Helper for
`findNextIn`. -/
def minByStart : List FoundBracket → Option FoundBracket
  | [] => none
  | b :: t =>
    match minByStart t with
    | none => some b
    | some c =>
      if b.range.getStartPosition.isBefore c.range.getStartPosition then some b else some c

/-- Modelled from the spec: `findPrevBracket(pos)` of the editor model (not in
this repository's source tree) returns the nearest bracket token before the
position; its range may touch the position (rule 1 of the expansion algorithm
tests `prevBracket.range.getEndPosition().equals(originalStartPosition)`).
Realized over a finite token list as the bracket with the latest end position
among those ending at or before the position. -/
def findPrevIn (bs : List FoundBracket) (pos : Position) : Option FoundBracket :=
  maxByEnd (bs.filter (fun b => b.range.getEndPosition.isBeforeOrEqual pos))

/-- Modelled from the spec: `findNextBracket(pos)` of the editor model (not in
this repository's source tree) returns the nearest bracket token after the
position, realized over a finite token list as the bracket with the earliest
start position among those starting at or after the position. -/
def findNextIn (bs : List FoundBracket) (pos : Position) : Option FoundBracket :=
  minByStart (bs.filter (fun b => pos.isBeforeOrEqual b.range.getStartPosition))

/-- A position is inside or touching a bracket token's range. -/
def touchesRange (r : Range) (p : Position) : Bool :=
  r.getStartPosition.isBeforeOrEqual p && p.isBeforeOrEqual r.getEndPosition

/-- Modelled from the spec: `matchBracket(pos)` of the editor model (not in
this repository's source tree) returns, for a position inside or touching a
bracket token, the matched pair's two ranges (ordered with the opening
bracket first), or absence. Realized over a finite list of matched pairs. -/
def matchIn (pairs : List (Range × Range)) (p : Position) : Option (Range × Range) :=
  pairs.findSome? (fun pr =>
    if touchesRange pr.1 p || touchesRange pr.2 p then some pr else none)

/-- List-backed instance of the bracket oracle. -/
def mkModel (bs : List FoundBracket) (pairs : List (Range × Range)) : Model :=
  ⟨findPrevIn bs, findNextIn bs, matchIn pairs⟩

/-- The doubly linked selection chain of `SmartSelectController`, read from
the current `State` node: `prevs` lists the ranges of the nodes reachable via
`previous` (nearest first), `cur` is the current node's range, `nexts` lists
the ranges of the nodes reachable via `next` (nearest first). -/
structure ChainZipper where
  prevs : List Range
  cur : Range
  nexts : List Range
deriving DecidableEq, Repr

/-- The editor surface touched by `SmartSelectController.run`: the shared
`ignoreSelection` guard flag and the editor's current selection (a `Range`,
as stored in `State.selection`). -/
structure EditorState where
  ignoreSelection : Bool
  selection : Range
deriving DecidableEq, Repr

/-- Chain construction of `SmartSelectController.run` (lines 88-113): the
oracle's elements are filtered to those whose range contains both the current
selection's start and end positions; the surviving elements are chained in
order, each new node's `next` pointing at the previously created one, and a
head node holding the current selection is prepended. Read as a zipper at
the head node: no `previous` nodes, and the `next` chain is the reversed
filtered list. -/
def buildChain (elements : List Range) (selection : Range) : ChainZipper :=
  ⟨[], selection,
    (elements.filter (fun r =>
      r.containsPosition selection.getStartPosition &&
      r.containsPosition selection.getEndPosition)).reverse⟩

/-- `state = state.next` on the zipper: absent at the outward end. -/
def ChainZipper.stepNext (z : ChainZipper) : Option ChainZipper :=
  match z.nexts with
  | [] => none
  | n :: rest => some ⟨z.cur :: z.prevs, n, rest⟩

/-- `state = state.previous` on the zipper: absent at the inward end. -/
def ChainZipper.stepPrev (z : ChainZipper) : Option ChainZipper :=
  match z.prevs with
  | [] => none
  | p :: rest => some ⟨rest, p, z.cur :: z.nexts⟩

/-- The selection-applying section of `SmartSelectController.run`
(lines 137-142): `ignoreSelection = true; try { setSelection } finally
{ ignoreSelection = false }`. `setSelThrows` is the oracle deciding whether
`editor.setSelection` throws on a given range; on a throw the selection is
left unchanged, the error propagates (the returned `Bool`), and the
`finally` block still clears the guard flag. -/
def applySelectionGuarded (setSelThrows : Range → Bool) (r : Range)
    (ed : EditorState) : EditorState × Bool :=
  let ed1 : EditorState := { ed with ignoreSelection := true }
  let body : EditorState × Bool :=
    if setSelThrows r then (ed1, true) else ({ ed1 with selection := r }, false)
  ({ body.1 with ignoreSelection := false }, body.2)

/-- One invocation of `SmartSelectController.run` (lines 68-146) as a pure
transition. `forward` selects grow vs shrink; `sameEditor` is the
`state.editor !== this.editor` check (lines 74-78); `elements` is the
range-candidate oracle's answer for the current selection (an empty list is
`isFalsyOrEmpty`, leaving the state empty); `setSelThrows` is the
`setSelection` throw oracle. If the state is empty a chain is built at the
current selection; then the state moves to `next`/`previous`, becoming empty
(and changing nothing else) when that node is absent, and otherwise the new
node's range is applied as the selection under the guard flag. The returned
`Bool` reports an escaped `setSelection` error. -/
def runStep (forward : Bool) (sameEditor : Bool) (elements : List Range)
    (setSelThrows : Range → Bool) (st : Option ChainZipper) (ed : EditorState) :
    Option ChainZipper × EditorState × Bool :=
  let st0 : Option ChainZipper :=
    match st with
    | some z => if sameEditor then some z else none
    | none => none
  let st1 : Option ChainZipper :=
    match st0 with
    | none => if elements.isEmpty then none else some (buildChain elements ed.selection)
    | some z => some z
  match st1 with
  | none => (none, ed, false)
  | some z =>
    match (if forward then z.stepNext else z.stepPrev) with
    | none => (none, ed, false)
    | some z' =>
      let applied := applySelectionGuarded setSelThrows z'.cur ed
      (some z', applied.1, applied.2)

/-- Iterated shrink: `runStep` with `forward = false`, `n` times, threading
chain state and editor state. -/
def shrinkN (elements : List Range) (setSelThrows : Range → Bool) :
    Nat → Option ChainZipper × EditorState → Option ChainZipper × EditorState
  | 0, s => s
  | n + 1, s =>
    let r := runStep false true elements setSelThrows s.1 s.2
    shrinkN elements setSelThrows n (r.1, r.2.1)

/-- Concrete document `(abc)` (columns 1-6): bracket tokens `(` at [1,2) and
`)` at [5,6), one matched pair. -/
def modelParens : Model := mkModel
  [⟨⟨1, 1, 1, 2⟩, true⟩, ⟨⟨1, 5, 1, 6⟩, false⟩]
  [(⟨1, 1, 1, 2⟩, ⟨1, 5, 1, 6⟩)]

/-- Concrete document `[ ( ] ( } x )` (tokens at columns 1, 3, 5, 7, 9, 11,
13): squares `[`@1 / `]`@5 form a pair, parens `(`@7 / `)`@13 form a pair,
`(`@3 and `}`@9 are unmatched. -/
def modelMixed : Model := mkModel
  [⟨⟨1, 1, 1, 2⟩, true⟩, ⟨⟨1, 3, 1, 4⟩, true⟩, ⟨⟨1, 5, 1, 6⟩, false⟩,
   ⟨⟨1, 7, 1, 8⟩, true⟩, ⟨⟨1, 9, 1, 10⟩, false⟩, ⟨⟨1, 13, 1, 14⟩, false⟩]
  [(⟨1, 1, 1, 2⟩, ⟨1, 5, 1, 6⟩), (⟨1, 7, 1, 8⟩, ⟨1, 13, 1, 14⟩)]

/-- Concrete document `{ (a) x ( }` (tokens at columns 1, 3, 5, 9, 11):
braces `{`@1 / `}`@11 form a pair, parens `(`@3 / `)`@5 form a pair, and the
`(`@9 after the `x` is unmatched, so the right outward scan from `x` runs out
of brackets while the left one finds the `{`. -/
def modelBraceLeft : Model := mkModel
  [⟨⟨1, 1, 1, 2⟩, true⟩, ⟨⟨1, 3, 1, 4⟩, true⟩, ⟨⟨1, 5, 1, 6⟩, false⟩,
   ⟨⟨1, 9, 1, 10⟩, true⟩, ⟨⟨1, 11, 1, 12⟩, false⟩]
  [(⟨1, 1, 1, 2⟩, ⟨1, 11, 1, 12⟩), (⟨1, 3, 1, 4⟩, ⟨1, 5, 1, 6⟩)]

/-- Concrete document `) x`: a single unmatched closing bracket at [1,2);
`matchBracket` resolves nowhere. -/
def modelUnmatchedClose : Model := mkModel [⟨⟨1, 1, 1, 2⟩, false⟩] []

/-- Concrete document `<! abc !>` with the two-character brackets `<!` at
[1,3) and `!>` at [7,9) forming a pair. Its `matchBracket` is given directly
in the editor model's found-bracket-first pair order, so that a position
strictly inside `<!` resolves to (`<!` range, `!>` range) and one strictly
inside `!>` to (`!>` range, `<!` range); no bracket ends at the interior
positions, so the adjacency rule does not trigger there. -/
def modelAngle : Model :=
  ⟨findPrevIn [⟨⟨1, 1, 1, 3⟩, true⟩, ⟨⟨1, 7, 1, 9⟩, false⟩],
   findNextIn [⟨⟨1, 1, 1, 3⟩, true⟩, ⟨⟨1, 7, 1, 9⟩, false⟩],
   fun p =>
     if touchesRange ⟨1, 1, 1, 3⟩ p then some (⟨1, 1, 1, 3⟩, ⟨1, 7, 1, 9⟩)
     else if touchesRange ⟨1, 7, 1, 9⟩ p then some (⟨1, 7, 1, 9⟩, ⟨1, 1, 1, 3⟩)
     else none⟩

/-- Negation of rule 1's firing condition (lines 184-198): the nearest
previous bracket is absent, or does not end exactly at the selection start,
or `matchBracket` at its start does not resolve. When this holds,
`expandSelection` falls through to `expandRest`. -/
def rule1Misses (m : Model) (sel : Selection) : Bool :=
  match m.findPrevBracket sel.getStartPosition with
  | none => true
  | some pb =>
    !(pb.range.getEndPosition.equals sel.getStartPosition) ||
    (m.matchBracket pb.range.getStartPosition).isNone

/-- Negation of rule 2's firing condition (lines 204-206): `matchBracket`
fails at one of the selection ends, or `matchPrev[0]` differs from
`matchNext[1]`, or `matchPrev[0]` starts exactly at the selection start. -/
def rule2Misses (m : Model) (sel : Selection) : Bool :=
  match m.matchBracket sel.getStartPosition, m.matchBracket sel.getEndPosition with
  | some mp, some mn =>
    !(mp.1.equalsRange mn.2 && !(mp.1.getStartPosition.equals sel.getStartPosition))
  | _, _ => true

/-- Negation of rule 3's firing condition (lines 215-227): the selection is
not a caret, or `matchBracket` resolves at neither end. -/
def rule3Misses (m : Model) (sel : Selection) : Bool :=
  !(sel.getStartPosition.equals sel.getEndPosition) ||
  ((m.matchBracket sel.getStartPosition).isNone && (m.matchBracket sel.getEndPosition).isNone)

theorem Position.isBefore_iff (a b : Position) :
    a.isBefore b = true ↔
      a.lineNumber < b.lineNumber ∨ (a.lineNumber = b.lineNumber ∧ a.column < b.column) := by
  unfold Position.isBefore
  split
  · rename_i h
    simp [h]
  · split
    · rename_i h1 h2
      simp
      omega
    · rename_i h1 h2
      simp
      omega

theorem Position.isBeforeOrEqual_iff (a b : Position) :
    a.isBeforeOrEqual b = true ↔
      a.lineNumber < b.lineNumber ∨ (a.lineNumber = b.lineNumber ∧ a.column ≤ b.column) := by
  unfold Position.isBeforeOrEqual
  split
  · rename_i h
    simp [h]
  · split
    · rename_i h1 h2
      simp
      omega
    · rename_i h1 h2
      simp
      omega

theorem Position.isBefore_irrefl (p : Position) : p.isBefore p = false := by
  simp [Position.isBefore]

theorem Position.isBefore_trans {a b c : Position}
    (h1 : a.isBefore b = true) (h2 : b.isBefore c = true) : a.isBefore c = true := by
  rw [Position.isBefore_iff] at *
  omega

theorem Position.isBefore_of_isBefore_isBeforeOrEqual {a b c : Position}
    (h1 : a.isBefore b = true) (h2 : b.isBeforeOrEqual c = true) : a.isBefore c = true := by
  rw [Position.isBefore_iff] at *
  rw [Position.isBeforeOrEqual_iff] at h2
  omega

theorem Position.isBefore_of_isBeforeOrEqual_isBefore {a b c : Position}
    (h1 : a.isBeforeOrEqual b = true) (h2 : b.isBefore c = true) : a.isBefore c = true := by
  rw [Position.isBefore_iff] at *
  rw [Position.isBeforeOrEqual_iff] at h1
  omega

theorem Range.containsPosition_iff (r : Range) (p : Position) :
    r.containsPosition p = true ↔
      (r.startLineNumber ≤ p.lineNumber ∧ p.lineNumber ≤ r.endLineNumber ∧
       (p.lineNumber = r.startLineNumber → r.startColumn ≤ p.column) ∧
       (p.lineNumber = r.endLineNumber → p.column ≤ r.endColumn)) := by
  unfold Range.containsPosition
  split
  · rename_i h
    simp at h ⊢
    omega
  · split
    · rename_i h1 h2
      simp at h1 h2 ⊢
      omega
    · split
      · rename_i h1 h2 h3
        simp at h1 h2 h3 ⊢
        omega
      · rename_i h1 h2 h3
        simp at h1 h2 h3 ⊢
        omega

theorem Range.containsRange_iff (r o : Range) :
    r.containsRange o = true ↔
      (r.startLineNumber ≤ o.startLineNumber ∧ r.startLineNumber ≤ o.endLineNumber ∧
       o.startLineNumber ≤ r.endLineNumber ∧ o.endLineNumber ≤ r.endLineNumber ∧
       (o.startLineNumber = r.startLineNumber → r.startColumn ≤ o.startColumn) ∧
       (o.endLineNumber = r.endLineNumber → o.endColumn ≤ r.endColumn)) := by
  unfold Range.containsRange
  split
  · rename_i h
    simp at h ⊢
    omega
  · split
    · rename_i h1 h2
      simp at h1 h2 ⊢
      omega
    · split
      · rename_i h1 h2 h3
        simp at h1 h2 h3 ⊢
        omega
      · split
        · rename_i h1 h2 h3 h4
          simp at h1 h2 h3 h4 ⊢
          omega
        · rename_i h1 h2 h3 h4
          simp at h1 h2 h3 h4 ⊢
          omega

theorem Range.containsRange_of_containsPosition {r o : Range}
    (h1 : r.containsPosition o.getStartPosition = true)
    (h2 : r.containsPosition o.getEndPosition = true) :
    r.containsRange o = true := by
  rw [Range.containsPosition_iff] at h1 h2
  rw [Range.containsRange_iff]
  simp [Range.getStartPosition, Range.getEndPosition] at h1 h2
  omega

theorem maxByEnd_mem {l : List FoundBracket} {b : FoundBracket}
    (h : maxByEnd l = some b) : b ∈ l := by
  induction l with
  | nil => simp [maxByEnd] at h
  | cons x t ih =>
    unfold maxByEnd at h
    cases hm : maxByEnd t with
    | none =>
      rw [hm] at h
      simp at h
      simp [h]
    | some c =>
      rw [hm] at h
      by_cases hc : c.range.getEndPosition.isBefore x.range.getEndPosition = true
      · simp [hc] at h
        simp [h]
      · simp [hc] at h
        subst h
        exact List.mem_cons_of_mem x (ih hm)

theorem minByStart_mem {l : List FoundBracket} {b : FoundBracket}
    (h : minByStart l = some b) : b ∈ l := by
  induction l with
  | nil => simp [minByStart] at h
  | cons x t ih =>
    unfold minByStart at h
    cases hm : minByStart t with
    | none =>
      rw [hm] at h
      simp at h
      simp [h]
    | some c =>
      rw [hm] at h
      by_cases hc : x.range.getStartPosition.isBefore c.range.getStartPosition = true
      · simp [hc] at h
        simp [h]
      · simp [hc] at h
        subst h
        exact List.mem_cons_of_mem x (ih hm)

/-- For a token list of well-formed (nonempty-range) brackets, `findPrevIn`
returns a listed bracket starting strictly before the queried position. -/
theorem findPrevIn_spec (bs : List FoundBracket)
    (hwf : bs.all (fun b => b.range.getStartPosition.isBefore b.range.getEndPosition) = true) :
    ∀ p b, findPrevIn bs p = some b →
      b ∈ bs ∧ b.range.getStartPosition.isBefore p = true := by
  intro p b h
  have hmem := maxByEnd_mem h
  have hbs : b ∈ bs := (List.mem_filter.mp hmem).1
  have hle : b.range.getEndPosition.isBeforeOrEqual p = true := (List.mem_filter.mp hmem).2
  have hlt : b.range.getStartPosition.isBefore b.range.getEndPosition = true :=
    List.all_eq_true.mp hwf b hbs
  exact ⟨hbs, Position.isBefore_of_isBefore_isBeforeOrEqual hlt hle⟩

/-- For a token list of well-formed (nonempty-range) brackets, `findNextIn`
returns a listed bracket ending strictly after the queried position. -/
theorem findNextIn_spec (bs : List FoundBracket)
    (hwf : bs.all (fun b => b.range.getStartPosition.isBefore b.range.getEndPosition) = true) :
    ∀ p b, findNextIn bs p = some b →
      b ∈ bs ∧ p.isBefore b.range.getEndPosition = true := by
  intro p b h
  have hmem := minByStart_mem h
  have hbs : b ∈ bs := (List.mem_filter.mp hmem).1
  have hge : p.isBeforeOrEqual b.range.getStartPosition = true := (List.mem_filter.mp hmem).2
  have hlt : b.range.getStartPosition.isBefore b.range.getEndPosition = true :=
    List.all_eq_true.mp hwf b hbs
  exact ⟨hbs, Position.isBefore_of_isBeforeOrEqual_isBefore hge hlt⟩

/-- Filtering by a stronger predicate yields a list no longer than filtering
by a weaker one. -/
theorem length_filter_le_of_imp {α : Type} (l : List α) (P Q : α → Bool)
    (himp : ∀ x, Q x = true → P x = true) :
    (l.filter Q).length ≤ (l.filter P).length := by
  induction l with
  | nil => simp
  | cons x t ih =>
    by_cases hQ : Q x = true
    · simp only [List.filter_cons, hQ, himp x hQ]
      simp
      omega
    · simp only [Bool.not_eq_true] at hQ
      by_cases hP : P x = true
      · simp only [List.filter_cons, hQ, hP]
        simp
        omega
      · simp only [Bool.not_eq_true] at hP
        simp only [List.filter_cons, hQ, hP]
        exact ih

/-- A list member satisfying `P` but not `Q`, with `Q` implying `P`, makes the
`Q`-filtered list strictly shorter than the `P`-filtered one. -/
theorem length_filter_lt {α : Type} {l : List α} {P Q : α → Bool} {b : α}
    (hb : b ∈ l) (hPb : P b = true) (hQb : Q b = false)
    (himp : ∀ x, Q x = true → P x = true) :
    (l.filter Q).length < (l.filter P).length := by
  induction l with
  | nil => cases hb
  | cons x t ih =>
    rcases List.mem_cons.mp hb with hx | ht
    · subst hx
      have hmono := length_filter_le_of_imp t P Q himp
      simp only [List.filter_cons, hPb, hQb]
      simp
      omega
    · have hrec := ih ht
      by_cases hQx : Q x = true
      · simp only [List.filter_cons, hQx, himp x hQx]
        simp
        omega
      · simp only [Bool.not_eq_true] at hQx
        by_cases hPx : P x = true
        · simp only [List.filter_cons, hQx, hPx]
          simp
          omega
        · simp only [Bool.not_eq_true] at hPx
          simp only [List.filter_cons, hQx, hPx]
          exact hrec

/-- The left outward scan terminates (returns within fuel) whenever the
oracle only ever answers with brackets from a fixed finite token list that
start strictly before the queried position. -/
theorem scanPrev_isSome (m : Model) (bs : List FoundBracket)
    (hPrev : ∀ p b, m.findPrevBracket p = some b →
      b ∈ bs ∧ b.range.getStartPosition.isBefore p = true) :
    ∀ fuel pos c,
      (bs.filter (fun b => b.range.getStartPosition.isBefore pos)).length < fuel →
      (scanPrev m fuel pos c).isSome = true := by
  intro fuel
  induction fuel with
  | zero =>
    intro pos c h
    exact absurd h (Nat.not_lt_zero _)
  | succ fuel ih =>
    intro pos c h
    unfold scanPrev
    cases hf : m.findPrevBracket pos with
    | none => simp
    | some b =>
      obtain ⟨hmem, hlt⟩ := hPrev pos b hf
      dsimp only
      by_cases hc : (0 : Int) ≤ (if !b.isOpen then c + 1 else c - 1)
      · rw [if_pos hc]
        apply ih
        have hdec :
            (bs.filter (fun x => x.range.getStartPosition.isBefore b.range.getStartPosition)).length <
            (bs.filter (fun x => x.range.getStartPosition.isBefore pos)).length :=
          length_filter_lt hmem hlt (Position.isBefore_irrefl _)
            (fun x hx => Position.isBefore_trans hx hlt)
        omega
      · rw [if_neg hc]
        simp

/-- The right outward scan terminates (returns within fuel) whenever the
oracle only ever answers with brackets from a fixed finite token list that
end strictly after the queried position. -/
theorem scanNext_isSome (m : Model) (bs : List FoundBracket)
    (hNext : ∀ p b, m.findNextBracket p = some b →
      b ∈ bs ∧ p.isBefore b.range.getEndPosition = true) :
    ∀ fuel pos c,
      (bs.filter (fun b => pos.isBefore b.range.getEndPosition)).length < fuel →
      (scanNext m fuel pos c).isSome = true := by
  intro fuel
  induction fuel with
  | zero =>
    intro pos c h
    exact absurd h (Nat.not_lt_zero _)
  | succ fuel ih =>
    intro pos c h
    unfold scanNext
    cases hf : m.findNextBracket pos with
    | none => simp
    | some b =>
      obtain ⟨hmem, hlt⟩ := hNext pos b hf
      dsimp only
      by_cases hc : (0 : Int) ≤ (if b.isOpen then c + 1 else c - 1)
      · rw [if_pos hc]
        apply ih
        have hdec :
            (bs.filter (fun x => (b.range.getEndPosition).isBefore x.range.getEndPosition)).length <
            (bs.filter (fun x => pos.isBefore x.range.getEndPosition)).length :=
          length_filter_lt hmem hlt (Position.isBefore_irrefl _)
            (fun x hx => Position.isBefore_trans hlt hx)
        omega
      · rw [if_neg hc]
        simp

/-- When rule 1 does not fire, `expandSelection` computes `expandRest`. -/
theorem expandSelection_eq_rest (m : Model) (fuel : Nat) (sel : Selection)
    (h : rule1Misses m sel = true) :
    expandSelection m fuel sel = expandRest m fuel sel := by
  unfold expandSelection
  unfold rule1Misses at h
  cases hf : m.findPrevBracket sel.getStartPosition with
  | none => rfl
  | some pb =>
    rw [hf] at h
    dsimp only
    dsimp only at h
    by_cases h2 : pb.range.getEndPosition.equals sel.getStartPosition = true
    · rw [if_pos h2]
      rw [h2] at h
      simp at h
      cases hm : m.matchBracket pb.range.getStartPosition with
      | none => rfl
      | some mp =>
        rw [hm] at h
        simp at h
    · rw [if_neg h2]

/-- When rules 2 and 3 do not fire, `expandRest` computes `scanStage`. -/
theorem expandRest_eq_scanStage (m : Model) (fuel : Nat) (sel : Selection)
    (h2 : rule2Misses m sel = true) (h3 : rule3Misses m sel = true) :
    expandRest m fuel sel = scanStage m fuel sel := by
  unfold expandRest
  unfold rule2Misses at h2
  unfold rule3Misses at h3
  dsimp only
  cases hp : m.matchBracket sel.getStartPosition with
  | none =>
    cases hn : m.matchBracket sel.getEndPosition with
    | none =>
      dsimp only
      by_cases hc : sel.getStartPosition.equals sel.getEndPosition = true
      · rw [if_pos hc]
      · rw [if_neg hc]
    | some mn =>
      rw [hp, hn] at h3
      simp only [Option.isNone_none, Option.isNone_some, Bool.true_and, Bool.false_and,
        Bool.and_false, Bool.or_false, Bool.not_eq_true'] at h3
      dsimp only
      rw [if_neg (by simp [h3])]
  | some mp =>
    cases hn : m.matchBracket sel.getEndPosition with
    | none =>
      rw [hp, hn] at h3
      simp only [Option.isNone_none, Option.isNone_some, Bool.true_and, Bool.false_and,
        Bool.and_false, Bool.or_false, Bool.not_eq_true'] at h3
      dsimp only
      rw [if_neg (by simp [h3])]
    | some mn =>
      rw [hp, hn] at h2
      rw [hp, hn] at h3
      simp only [Option.isNone_some, Bool.and_false, Bool.false_and, Bool.or_false,
        Bool.not_eq_true'] at h2 h3
      dsimp only
      rw [h2]
      simp only [Bool.false_eq_true, if_false]
      rw [if_neg (by simp [h3])]

/-- Scan outcome: only the left scan found a candidate and it resolves;
`bracketsToSelect` is `matchPrev` and the inner-boundary selection is
returned. -/
theorem scanStage_left_only (m : Model) (fuel : Nat) (sel : Selection)
    (pb : FoundBracket) (mp : Range × Range)
    (hsp : scanPrev m fuel sel.getStartPosition 0 = some (some pb))
    (hsn : scanNext m fuel sel.getEndPosition 0 = some none)
    (hm : m.matchBracket pb.range.getStartPosition = some mp) :
    scanStage m fuel sel = some (selInner mp) := by
  unfold scanStage
  rw [hsp, hsn]
  dsimp only
  rw [hm]

/-- Scan outcome: only the right scan found a candidate and it resolves;
`bracketsToSelect` is `matchNext` and the outer-boundary selection is
returned. -/
theorem scanStage_right_only (m : Model) (fuel : Nat) (sel : Selection)
    (nb : FoundBracket) (mn : Range × Range)
    (hsp : scanPrev m fuel sel.getStartPosition 0 = some none)
    (hsn : scanNext m fuel sel.getEndPosition 0 = some (some nb))
    (hm : m.matchBracket nb.range.getStartPosition = some mn) :
    scanStage m fuel sel = some (selOuter mn) := by
  unfold scanStage
  rw [hsp, hsn]
  dsimp only
  rw [hm]

/-- Scan outcome: both scans found candidates and both resolve; the right
match is chosen (outer-boundary selection) exactly when
`matchPrev[1].getEndPosition().isBefore(matchNext[0].getEndPosition())`, and
otherwise the left match is chosen (inner-boundary selection). -/
theorem scanStage_both (m : Model) (fuel : Nat) (sel : Selection)
    (pb nb : FoundBracket) (mp mn : Range × Range)
    (hsp : scanPrev m fuel sel.getStartPosition 0 = some (some pb))
    (hsn : scanNext m fuel sel.getEndPosition 0 = some (some nb))
    (hmp : m.matchBracket pb.range.getStartPosition = some mp)
    (hmn : m.matchBracket nb.range.getStartPosition = some mn) :
    scanStage m fuel sel =
      some (if mp.2.getEndPosition.isBefore mn.1.getEndPosition then selOuter mn
            else selInner mp) := by
  unfold scanStage
  rw [hsp, hsn]
  dsimp only
  rw [hmp, hmn]
  dsimp only
  by_cases hcmp : mp.2.getEndPosition.isBefore mn.1.getEndPosition = true
  · rw [if_pos hcmp, if_pos hcmp]
  · rw [if_neg hcmp, if_neg hcmp]
    simp only [Bool.not_eq_true] at hcmp
    rw [hcmp]
    simp

/-- C1 (as stated) is false. In the document `[ ( ] ( } x )` (modelMixed)
with the selection on `x`, both outward scans find candidates (`[` on the
left, `)` on the right) and both resolve via `matchBracket` (to the pairs
`[`/`]` and `(`@7/`)`@13). The left match's end position (1,6) is before the
right match's start position (1,7), so under the claim's own comparison the
right candidate's pair is chosen; the claim then requires that pair's
interior (1,8)-(1,13), but the code returns the pair's full span
(1,7)-(1,14). -/
theorem expand_both_sides_pick_cex :
    scanPrev modelMixed 10 (⟨1, 11⟩ : Position) 0 = some (some ⟨⟨1, 1, 1, 2⟩, true⟩) ∧
    scanNext modelMixed 10 (⟨1, 12⟩ : Position) 0 = some (some ⟨⟨1, 13, 1, 14⟩, false⟩) ∧
    modelMixed.matchBracket ⟨1, 1⟩ = some (⟨1, 1, 1, 2⟩, ⟨1, 5, 1, 6⟩) ∧
    modelMixed.matchBracket ⟨1, 13⟩ = some (⟨1, 7, 1, 8⟩, ⟨1, 13, 1, 14⟩) ∧
    Position.isBefore ⟨1, 6⟩ ⟨1, 7⟩ = true ∧
    expandSelection modelMixed 10 ⟨1, 11, 1, 12⟩ = some ⟨1, 7, 1, 14⟩ ∧
    (⟨1, 7, 1, 14⟩ : Selection) ≠ ⟨1, 8, 1, 13⟩ ∧
    (⟨1, 7, 1, 14⟩ : Selection) ≠ ⟨1, 13, 1, 8⟩ := by
  decide

/-- C1 amended: when rules 1-3 do not fire and both balanced outward scans
find candidates that resolve via `matchBracket`, the code compares the end
position of the left match's second range with the end position of the right
match's first range; if the former is strictly before the latter the right
candidate's pair is chosen and its full span (first range start to second
range end) is selected, otherwise (ties included) the left candidate's pair
is chosen and the selection runs from its first range's end to its second
range's start (the interior under the opening-first pair order). -/
theorem expand_both_sides_pick (m : Model) (fuel : Nat) (sel : Selection)
    (pb nb : FoundBracket) (mp mn : Range × Range)
    (h1 : rule1Misses m sel = true)
    (h2 : rule2Misses m sel = true)
    (h3 : rule3Misses m sel = true)
    (hsp : scanPrev m fuel sel.getStartPosition 0 = some (some pb))
    (hsn : scanNext m fuel sel.getEndPosition 0 = some (some nb))
    (hmp : m.matchBracket pb.range.getStartPosition = some mp)
    (hmn : m.matchBracket nb.range.getStartPosition = some mn) :
    expandSelection m fuel sel =
      some (if mp.2.getEndPosition.isBefore mn.1.getEndPosition then selOuter mn
            else selInner mp) := by
  rw [expandSelection_eq_rest m fuel sel h1, expandRest_eq_scanStage m fuel sel h2 h3]
  exact scanStage_both m fuel sel pb nb mp mn hsp hsn hmp hmn

/-- Witness for `expand_both_sides_pick` at modelMixed: the comparison favors
the right candidate and its full span (1,7)-(1,14) is selected. -/
theorem expand_both_sides_pick_wit :
    expandSelection modelMixed 10 ⟨1, 11, 1, 12⟩ = some ⟨1, 7, 1, 14⟩ :=
  (expand_both_sides_pick modelMixed 10 ⟨1, 11, 1, 12⟩
    ⟨⟨1, 1, 1, 2⟩, true⟩ ⟨⟨1, 13, 1, 14⟩, false⟩
    (⟨1, 1, 1, 2⟩, ⟨1, 5, 1, 6⟩) (⟨1, 7, 1, 8⟩, ⟨1, 13, 1, 14⟩)
    (by decide) (by decide) (by decide) (by decide) (by decide) (by decide)
    (by decide)).trans (by decide)

/-- C3 (as stated) is false for a left-side-only candidate. In the document
`{ (a) x ( }` (modelBraceLeft) with the selection on `x`, only the left scan
finds a candidate (the `{`, which resolves to the pair `{`/`}` spanning
(1,1)-(1,12)); the claim requires the pair's full span, but the code selects
from the first range's end to the second range's start, (1,2)-(1,11). -/
theorem expand_one_sided_candidate_cex :
    scanPrev modelBraceLeft 10 (⟨1, 7⟩ : Position) 0 = some (some ⟨⟨1, 1, 1, 2⟩, true⟩) ∧
    scanNext modelBraceLeft 10 (⟨1, 8⟩ : Position) 0 = some none ∧
    modelBraceLeft.matchBracket ⟨1, 1⟩ = some (⟨1, 1, 1, 2⟩, ⟨1, 11, 1, 12⟩) ∧
    expandSelection modelBraceLeft 10 ⟨1, 7, 1, 8⟩ = some ⟨1, 2, 1, 11⟩ ∧
    (⟨1, 2, 1, 11⟩ : Selection) ≠ ⟨1, 1, 1, 12⟩ := by
  decide

/-- C3 amended: when rules 1-3 do not fire and exactly one balanced outward
scan finds a candidate that resolves via `matchBracket`, the result depends
on the side: a right-scan candidate's match is selected as its full span
(first range start to second range end), while a left-scan candidate's match
is selected from its first range's end to its second range's start (the
interior under the opening-first pair order), not the full span. -/
theorem expand_one_sided_candidate (m : Model) (fuel : Nat) (sel : Selection)
    (h1 : rule1Misses m sel = true)
    (h2 : rule2Misses m sel = true)
    (h3 : rule3Misses m sel = true) :
    (∀ nb mn, scanPrev m fuel sel.getStartPosition 0 = some none →
      scanNext m fuel sel.getEndPosition 0 = some (some nb) →
      m.matchBracket nb.range.getStartPosition = some mn →
      expandSelection m fuel sel = some (selOuter mn)) ∧
    (∀ pb mp, scanPrev m fuel sel.getStartPosition 0 = some (some pb) →
      scanNext m fuel sel.getEndPosition 0 = some none →
      m.matchBracket pb.range.getStartPosition = some mp →
      expandSelection m fuel sel = some (selInner mp)) := by
  rw [expandSelection_eq_rest m fuel sel h1, expandRest_eq_scanStage m fuel sel h2 h3]
  constructor
  · intro nb mn hsp hsn hm
    exact scanStage_right_only m fuel sel nb mn hsp hsn hm
  · intro pb mp hsp hsn hm
    exact scanStage_left_only m fuel sel pb mp hsp hsn hm

/-- Witness for `expand_one_sided_candidate` at modelBraceLeft (left-side
case). -/
theorem expand_one_sided_candidate_wit :
    expandSelection modelBraceLeft 10 ⟨1, 7, 1, 8⟩ = some ⟨1, 2, 1, 11⟩ :=
  (((expand_one_sided_candidate modelBraceLeft 10 ⟨1, 7, 1, 8⟩
      (by decide) (by decide) (by decide)).2
    ⟨⟨1, 1, 1, 2⟩, true⟩ (⟨1, 1, 1, 2⟩, ⟨1, 11, 1, 12⟩)
    (by decide) (by decide) (by decide))).trans (by decide)

/-- C6's closing-side example is false. In the document `(abc)` (modelParens)
a caret at (1,5), immediately left of `)`, is not left-adjacent to any
bracket (the nearest previous bracket `(` ends at (1,2)); the caret rule
fires instead and the code selects the full span (1,1)-(1,6), not the
interior `abc` claimed. -/
theorem expand_adjacency_rule_cex :
    expandSelection modelParens 10 ⟨1, 5, 1, 5⟩ = some ⟨1, 1, 1, 6⟩ ∧
    (⟨1, 1, 1, 6⟩ : Selection) ≠ ⟨1, 2, 1, 5⟩ ∧
    (⟨1, 1, 1, 6⟩ : Selection) ≠ ⟨1, 5, 1, 2⟩ := by
  decide

/-- C6 amended: when the nearest previous bracket's range ends exactly at the
selection start and `matchBracket` at that bracket's start resolves, the code
selects the match's full span (first range start to second range end) for an
opening bracket, and the span from the first range's end to the second
range's start (the pair's interior under the opening-first order, in forward
orientation) for a closing bracket; the closing case arises for a caret
immediately after `)`, while a caret immediately left of `)` is not adjacent
and takes the caret rule (full span) instead. -/
theorem expand_adjacency_rule (m : Model) (fuel : Nat) (sel : Selection)
    (pb : FoundBracket) (mp : Range × Range)
    (hf : m.findPrevBracket sel.getStartPosition = some pb)
    (hadj : pb.range.getEndPosition.equals sel.getStartPosition = true)
    (hm : m.matchBracket pb.range.getStartPosition = some mp) :
    expandSelection m fuel sel =
      some (if pb.isOpen then selOuter mp else selInner mp) := by
  unfold expandSelection
  rw [hf]
  dsimp only
  rw [if_pos hadj, hm]
  dsimp only
  by_cases ho : pb.isOpen = true
  · rw [if_pos ho, if_pos ho]
  · rw [if_neg ho, if_neg ho]

/-- Witness for `expand_adjacency_rule` at modelParens: a caret immediately
after `(` selects the full span (1,1)-(1,6); a caret immediately after `)`
selects the interior (1,2)-(1,5). -/
theorem expand_adjacency_rule_wit :
    expandSelection modelParens 10 ⟨1, 2, 1, 2⟩ = some ⟨1, 1, 1, 6⟩ ∧
    expandSelection modelParens 10 ⟨1, 6, 1, 6⟩ = some ⟨1, 2, 1, 5⟩ :=
  ⟨(expand_adjacency_rule modelParens 10 ⟨1, 2, 1, 2⟩ ⟨⟨1, 1, 1, 2⟩, true⟩
      (⟨1, 1, 1, 2⟩, ⟨1, 5, 1, 6⟩) (by decide) (by decide) (by decide)).trans (by decide),
   (expand_adjacency_rule modelParens 10 ⟨1, 6, 1, 6⟩ ⟨⟨1, 5, 1, 6⟩, false⟩
      (⟨1, 1, 1, 2⟩, ⟨1, 5, 1, 6⟩) (by decide) (by decide) (by decide)).trans (by decide)⟩

/-- C7 (as stated) is false. In the document `(abc)` (modelParens) with the
selection (1,5)-(1,6) covering `)`, `matchBracket` resolves at both selection
ends to the same pair, so the two resolutions' closing sides are the same
range and the selection start (1,5) differs from the pair's interior start
(1,2); the claim requires the full outer span (1,1)-(1,6), but the code's
rule compares `matchPrev[0]` with `matchNext[1]` (which differ here), so the
rule does not fire and the balanced scans produce the interior
(1,2)-(1,5) instead. -/
theorem expand_interior_pair_rule_cex :
    modelParens.matchBracket ⟨1, 5⟩ = some (⟨1, 1, 1, 2⟩, ⟨1, 5, 1, 6⟩) ∧
    modelParens.matchBracket ⟨1, 6⟩ = some (⟨1, 1, 1, 2⟩, ⟨1, 5, 1, 6⟩) ∧
    Range.equalsRange ⟨1, 5, 1, 6⟩ ⟨1, 5, 1, 6⟩ = true ∧
    Position.equals ⟨1, 5⟩ ⟨1, 2⟩ = false ∧
    expandSelection modelParens 10 ⟨1, 5, 1, 6⟩ = some ⟨1, 2, 1, 5⟩ ∧
    (⟨1, 2, 1, 5⟩ : Selection) ≠ ⟨1, 1, 1, 6⟩ := by
  decide

/-- C7 amended: when rule 1 does not fire, `matchBracket` resolves at both
selection ends, the first range of the start resolution equals (as a range)
the second range of the end resolution, and that first range's start differs
from the selection start, the code returns the start resolution's full outer
span (first range start to second range end). -/
theorem expand_interior_pair_rule (m : Model) (fuel : Nat) (sel : Selection)
    (mp mn : Range × Range)
    (h1 : rule1Misses m sel = true)
    (hmp : m.matchBracket sel.getStartPosition = some mp)
    (hmn : m.matchBracket sel.getEndPosition = some mn)
    (heq : mp.1.equalsRange mn.2 = true)
    (hne : mp.1.getStartPosition.equals sel.getStartPosition = false) :
    expandSelection m fuel sel = some (selOuter mp) := by
  rw [expandSelection_eq_rest m fuel sel h1]
  unfold expandRest
  dsimp only
  rw [hmp, hmn]
  dsimp only
  rw [heq, hne]
  simp

/-- Witness for `expand_interior_pair_rule` at modelAngle: a selection
strictly inside the two-character brackets `<!` and `!>` triggers the rule
and selects the full span (1,1)-(1,9). -/
theorem expand_interior_pair_rule_wit :
    expandSelection modelAngle 10 ⟨1, 2, 1, 8⟩ = some ⟨1, 1, 1, 9⟩ :=
  (expand_interior_pair_rule modelAngle 10 ⟨1, 2, 1, 8⟩
    (⟨1, 1, 1, 3⟩, ⟨1, 7, 1, 9⟩) (⟨1, 7, 1, 9⟩, ⟨1, 1, 1, 3⟩)
    (by decide) (by decide) (by decide) (by decide) (by decide)).trans (by decide)

/-- C10: when the nearest previous bracket's range ends exactly at the
selection start but `matchBracket` on it does not resolve, `expandSelection`
does not stop at the adjacency rule: it computes exactly `expandRest`, the
evaluation of the subsequent rules (interior-pair check, caret check,
balanced outward scans). -/
theorem expand_adjacent_unmatchable_falls_through (m : Model) (fuel : Nat)
    (sel : Selection) (pb : FoundBracket)
    (hf : m.findPrevBracket sel.getStartPosition = some pb)
    (hadj : pb.range.getEndPosition.equals sel.getStartPosition = true)
    (hm : m.matchBracket pb.range.getStartPosition = none) :
    expandSelection m fuel sel = expandRest m fuel sel := by
  apply expandSelection_eq_rest
  unfold rule1Misses
  rw [hf]
  dsimp only
  rw [hadj, hm]
  simp

/-- Witness for `expand_adjacent_unmatchable_falls_through` at
modelUnmatchedClose: a caret immediately after an unmatched `)`. -/
theorem expand_adjacent_unmatchable_falls_through_wit :
    expandSelection modelUnmatchedClose 10 ⟨1, 2, 1, 2⟩ =
      expandRest modelUnmatchedClose 10 ⟨1, 2, 1, 2⟩ :=
  expand_adjacent_unmatchable_falls_through modelUnmatchedClose 10 ⟨1, 2, 1, 2⟩
    ⟨⟨1, 1, 1, 2⟩, false⟩ (by decide) (by decide) (by decide)

/-- C9: both balanced outward scan loops terminate. If every `findPrevBracket`
answer is a bracket from a fixed finite token list starting strictly before
the queried position, and every `findNextBracket` answer one ending strictly
after it, then each iteration strictly shrinks the number of remaining
candidate tokens on its side, so with fuel exceeding that number both
`scanPrev` and `scanNext` return (either no bracket or a depth-negative
bracket) rather than scanning unboundedly. -/
theorem expand_scans_terminate (m : Model) (bs : List FoundBracket)
    (hPrev : ∀ p b, m.findPrevBracket p = some b →
      b ∈ bs ∧ b.range.getStartPosition.isBefore p = true)
    (hNext : ∀ p b, m.findNextBracket p = some b →
      b ∈ bs ∧ p.isBefore b.range.getEndPosition = true)
    (fuel : Nat) (pos : Position) (c : Int) :
    ((bs.filter (fun b => b.range.getStartPosition.isBefore pos)).length < fuel →
      (scanPrev m fuel pos c).isSome = true) ∧
    ((bs.filter (fun b => pos.isBefore b.range.getEndPosition)).length < fuel →
      (scanNext m fuel pos c).isSome = true) :=
  ⟨scanPrev_isSome m bs hPrev fuel pos c, scanNext_isSome m bs hNext fuel pos c⟩

/-- Witness for `expand_scans_terminate` on the `(abc)` document: both scans
from inside the text complete within fuel 10. -/
theorem expand_scans_terminate_wit :
    (scanPrev modelParens 10 (⟨1, 3⟩ : Position) 0).isSome = true ∧
    (scanNext modelParens 10 (⟨1, 3⟩ : Position) 0).isSome = true :=
  ⟨(expand_scans_terminate modelParens
      [⟨⟨1, 1, 1, 2⟩, true⟩, ⟨⟨1, 5, 1, 6⟩, false⟩]
      (findPrevIn_spec _ (by decide)) (findNextIn_spec _ (by decide))
      10 ⟨1, 3⟩ 0).1 (by decide),
   (expand_scans_terminate modelParens
      [⟨⟨1, 1, 1, 2⟩, true⟩, ⟨⟨1, 5, 1, 6⟩, false⟩]
      (findPrevIn_spec _ (by decide)) (findNextIn_spec _ (by decide))
      10 ⟨1, 3⟩ 0).2 (by decide)⟩

/-- A shrink step from the empty state leaves the editor unchanged: a freshly
built chain starts at its head, which has no `previous` node. -/
theorem runStep_shrink_none (elements : List Range) (thr : Range → Bool)
    (ed : EditorState) :
    runStep false true elements thr none ed = (none, ed, false) := by
  unfold runStep
  by_cases he : elements.isEmpty = true
  · simp [he]
  · simp [he, buildChain, ChainZipper.stepPrev]

/-- A shrink step from an innermost node (no `previous`) empties the state
and leaves the editor unchanged. -/
theorem runStep_shrink_innermost (elements : List Range) (thr : Range → Bool)
    (z : ChainZipper) (ed : EditorState) (hz : z.prevs = []) :
    runStep false true elements thr (some z) ed = (none, ed, false) := by
  unfold runStep ChainZipper.stepPrev
  simp [hz]

/-- A grow step from an outermost node (no `next`) empties the state and
leaves the editor unchanged. -/
theorem runStep_grow_outermost (elements : List Range) (thr : Range → Bool)
    (z : ChainZipper) (ed : EditorState) (hz : z.nexts = []) :
    runStep true true elements thr (some z) ed = (none, ed, false) := by
  unfold runStep ChainZipper.stepNext
  simp [hz]

/-- Iterated shrink from the empty state never changes anything. -/
theorem shrinkN_none (elements : List Range) (thr : Range → Bool)
    (ed : EditorState) : ∀ n, shrinkN elements thr n (none, ed) = (none, ed) := by
  intro n
  induction n with
  | zero => rfl
  | succ n ih =>
    unfold shrinkN
    rw [runStep_shrink_none]
    exact ih

/-- C2 (as stated) is false about the chain state. With an active chain at an
innermost node (here also carrying an available outward node), a shrink step
has no target; the claim says the current chain state is left unchanged, but
the code discards it (`state = state.previous` leaves the global state
empty). The selection is indeed unchanged. -/
theorem step_absent_target_cex :
    runStep false true [] (fun _ => false)
      (some ⟨[], ⟨1, 1, 1, 2⟩, [⟨1, 1, 2, 1⟩]⟩) ⟨false, ⟨1, 1, 1, 2⟩⟩ =
      (none, ⟨false, ⟨1, 1, 1, 2⟩⟩, false) ∧
    (none : Option ChainZipper) ≠ some ⟨[], ⟨1, 1, 1, 2⟩, [⟨1, 1, 2, 1⟩]⟩ := by
  decide

/-- C2 amended: when the current node has no target in the requested
direction (no `next` on grow at the outermost node, no `previous` on shrink
at the innermost node), the step empties the chain state and performs no
selection change and no error; in particular repeated shrink steps from the
innermost node never change the selection — it stabilizes at the original
range (after the first step the state is empty, and a rebuilt chain's head
again has no `previous`). -/
theorem step_absent_target (elements : List Range) (thr : Range → Bool)
    (z : ChainZipper) (ed : EditorState) :
    (z.nexts = [] → runStep true true elements thr (some z) ed = (none, ed, false)) ∧
    (z.prevs = [] → runStep false true elements thr (some z) ed = (none, ed, false)) ∧
    (z.prevs = [] → ∀ n, (shrinkN elements thr n (some z, ed)).2.selection = ed.selection) := by
  refine ⟨fun hz => runStep_grow_outermost elements thr z ed hz,
    fun hz => runStep_shrink_innermost elements thr z ed hz, fun hz n => ?_⟩
  cases n with
  | zero => rfl
  | succ n =>
    unfold shrinkN
    rw [runStep_shrink_innermost elements thr z ed hz]
    rw [shrinkN_none]

/-- Witness for `step_absent_target`: a one-node chain, three shrink steps. -/
theorem step_absent_target_wit :
    runStep false true [] (fun _ => false)
      (some ⟨[], ⟨1, 1, 1, 1⟩, []⟩) ⟨false, ⟨1, 1, 1, 1⟩⟩ =
      (none, ⟨false, ⟨1, 1, 1, 1⟩⟩, false) ∧
    (shrinkN [] (fun _ => false) 3
      (some ⟨[], ⟨1, 1, 1, 1⟩, []⟩, ⟨false, ⟨1, 1, 1, 1⟩⟩)).2.selection = ⟨1, 1, 1, 1⟩ :=
  ⟨(step_absent_target [] (fun _ => false) ⟨[], ⟨1, 1, 1, 1⟩, []⟩
      ⟨false, ⟨1, 1, 1, 1⟩⟩).2.1 rfl,
   (step_absent_target [] (fun _ => false) ⟨[], ⟨1, 1, 1, 1⟩, []⟩
      ⟨false, ⟨1, 1, 1, 1⟩⟩).2.2 rfl 3⟩

/-- C5: from any chain position whose editor selection matches the current
node, a grow step followed immediately by a shrink step restores the
previous node and re-applies exactly the previous selection (when
`setSelection` does not throw on the ranges involved); at the outward chain
end the grow step performs no selection change and the subsequent shrink
step leaves the selection unchanged as well, so the inverse law holds
trivially at the selection level. -/
theorem grow_shrink_inverse (elements : List Range) (thr : Range → Bool)
    (z : ChainZipper) (ed : EditorState) :
    (∀ n rest, z.nexts = n :: rest → thr n = false → thr z.cur = false →
      ed.selection = z.cur →
      runStep false true elements thr
        (runStep true true elements thr (some z) ed).1
        (runStep true true elements thr (some z) ed).2.1 =
        (some z, ⟨false, ed.selection⟩, false)) ∧
    (z.nexts = [] →
      runStep false true elements thr
        (runStep true true elements thr (some z) ed).1
        (runStep true true elements thr (some z) ed).2.1 = (none, ed, false)) := by
  constructor
  · intro n rest hz hn hc hsel
    obtain ⟨zp, zc, zn⟩ := z
    dsimp only at hz hn hc hsel
    subst hz
    have hgrow : runStep true true elements thr (some ⟨zp, zc, n :: rest⟩) ed =
        (some ⟨zc :: zp, n, rest⟩, ⟨false, n⟩, false) := by
      unfold runStep ChainZipper.stepNext
      simp [applySelectionGuarded, hn]
    rw [hgrow]
    unfold runStep ChainZipper.stepPrev
    simp [applySelectionGuarded, hc, hsel]
  · intro hz
    rw [runStep_grow_outermost elements thr z ed hz]
    exact runStep_shrink_none elements thr ed

/-- Witness for `grow_shrink_inverse`: a two-node chain; grow then shrink
returns to the original node and selection. -/
theorem grow_shrink_inverse_wit :
    runStep false true [] (fun _ => false)
      (runStep true true [] (fun _ => false)
        (some ⟨[], ⟨1, 1, 1, 5⟩, [⟨1, 1, 2, 9⟩]⟩) ⟨false, ⟨1, 1, 1, 5⟩⟩).1
      (runStep true true [] (fun _ => false)
        (some ⟨[], ⟨1, 1, 1, 5⟩, [⟨1, 1, 2, 9⟩]⟩) ⟨false, ⟨1, 1, 1, 5⟩⟩).2.1 =
      (some ⟨[], ⟨1, 1, 1, 5⟩, [⟨1, 1, 2, 9⟩]⟩, ⟨false, ⟨1, 1, 1, 5⟩⟩, false) :=
  (grow_shrink_inverse [] (fun _ => false) ⟨[], ⟨1, 1, 1, 5⟩, [⟨1, 1, 2, 9⟩]⟩
    ⟨false, ⟨1, 1, 1, 5⟩⟩).1 ⟨1, 1, 2, 9⟩ [] rfl rfl rfl rfl

/-- C8: the selection-applying section of `SmartSelectController.run` sets
the guard flag and releases it on every exit path: `applySelectionGuarded`
(the `ignoreSelection = true; try setSelection finally ignoreSelection =
false` block) always ends with the flag cleared, whether or not
`setSelection` throws; consequently a whole `runStep` invocation entered
with the flag clear also ends with it clear on every path. -/
theorem guard_flag_released (thr : Range → Bool) (r : Range) (ed : EditorState) :
    (applySelectionGuarded thr r ed).1.ignoreSelection = false ∧
    (∀ forward sameEditor elements st, ed.ignoreSelection = false →
      (runStep forward sameEditor elements thr st ed).2.1.ignoreSelection = false) := by
  constructor
  · unfold applySelectionGuarded
    by_cases h : thr r = true
    · simp [h]
    · simp [h]
  · intro forward sameEditor elements st hed
    unfold runStep
    dsimp only
    split
    · exact hed
    · split
      · exact hed
      · simp [applySelectionGuarded]

/-- Witness for `guard_flag_released` with a throwing `setSelection`: the
flag is clear after the section and after a full step whose selection
application throws. -/
theorem guard_flag_released_wit :
    (applySelectionGuarded (fun _ => true) ⟨1, 1, 1, 1⟩
      ⟨false, ⟨1, 1, 1, 1⟩⟩).1.ignoreSelection = false ∧
    (runStep true true [] (fun _ => true)
      (some ⟨[], ⟨1, 1, 1, 1⟩, [⟨1, 1, 2, 2⟩]⟩)
      ⟨false, ⟨1, 1, 1, 1⟩⟩).2.1.ignoreSelection = false :=
  ⟨(guard_flag_released (fun _ => true) ⟨1, 1, 1, 1⟩ ⟨false, ⟨1, 1, 1, 1⟩⟩).1,
   (guard_flag_released (fun _ => true) ⟨1, 1, 1, 1⟩ ⟨false, ⟨1, 1, 1, 1⟩⟩).2
     true true [] (some ⟨[], ⟨1, 1, 1, 1⟩, [⟨1, 1, 2, 2⟩]⟩) rfl⟩

/-- C4: in every chain built by the rebuild step, every candidate node's
range contains both the selection's start and end positions (partial
overlaps are filtered out), and — provided the candidate oracle's list is
ordered by containment, outermost first, as the range provider supplies it —
every consecutive pair (n, n.next) along the chain satisfies that n's range
is contained in n.next's range (the head being the selection itself). -/
theorem chain_containment_invariant (elements : List Range) (selection : Range)
    (hord : List.Pairwise (fun a b => a.containsRange b = true) elements) :
    (∀ r ∈ (buildChain elements selection).nexts,
      r.containsPosition selection.getStartPosition = true ∧
      r.containsPosition selection.getEndPosition = true) ∧
    List.Chain' (fun a b => b.containsRange a = true)
      ((buildChain elements selection).cur :: (buildChain elements selection).nexts) := by
  constructor
  · intro r hr
    unfold buildChain at hr
    dsimp only at hr
    rw [List.mem_reverse] at hr
    have hp := List.of_mem_filter hr
    simp only [Bool.and_eq_true] at hp
    exact hp
  · unfold buildChain
    dsimp only
    rw [List.chain'_cons']
    constructor
    · intro y hy
      have hmem := List.mem_of_mem_head? hy
      rw [List.mem_reverse] at hmem
      have hp := List.of_mem_filter hmem
      simp only [Bool.and_eq_true] at hp
      exact Range.containsRange_of_containsPosition hp.1 hp.2
    · apply List.Pairwise.chain'
      rw [List.pairwise_reverse]
      exact List.Pairwise.sublist (List.filter_sublist elements) hord

/-- Witness for `chain_containment_invariant` on three nested candidate
ranges around the selection (3,2)-(3,4). -/
theorem chain_containment_invariant_wit :
    (∀ r ∈ (buildChain [⟨1, 1, 9, 9⟩, ⟨2, 1, 8, 9⟩, ⟨3, 1, 3, 9⟩] ⟨3, 2, 3, 4⟩).nexts,
      r.containsPosition (Range.getStartPosition ⟨3, 2, 3, 4⟩) = true ∧
      r.containsPosition (Range.getEndPosition ⟨3, 2, 3, 4⟩) = true) ∧
    List.Chain' (fun a b => b.containsRange a = true)
      ((buildChain [⟨1, 1, 9, 9⟩, ⟨2, 1, 8, 9⟩, ⟨3, 1, 3, 9⟩] ⟨3, 2, 3, 4⟩).cur ::
        (buildChain [⟨1, 1, 9, 9⟩, ⟨2, 1, 8, 9⟩, ⟨3, 1, 3, 9⟩] ⟨3, 2, 3, 4⟩).nexts) :=
  chain_containment_invariant [⟨1, 1, 9, 9⟩, ⟨2, 1, 8, 9⟩, ⟨3, 1, 3, 9⟩] ⟨3, 2, 3, 4⟩
    (by decide)

/-- C4's monotonicity part is false without an ordering assumption on the
candidate oracle. The overlapping, non-nested candidates (1,1)-(5,9) and
(3,1)-(8,9) both contain the selection (4,1)-(4,2), so both survive the
filter and are chained (consecutive pair ((3,1)-(8,9), (1,1)-(5,9)) along
`next`), yet the former is not contained in the latter, violating the
claimed consecutive containment. -/
theorem chain_containment_invariant_cex :
    (buildChain [⟨1, 1, 5, 9⟩, ⟨3, 1, 8, 9⟩] ⟨4, 1, 4, 2⟩).nexts =
      [⟨3, 1, 8, 9⟩, ⟨1, 1, 5, 9⟩] ∧
    (∀ r ∈ (buildChain [⟨1, 1, 5, 9⟩, ⟨3, 1, 8, 9⟩] ⟨4, 1, 4, 2⟩).nexts,
      r.containsPosition (Range.getStartPosition ⟨4, 1, 4, 2⟩) = true ∧
      r.containsPosition (Range.getEndPosition ⟨4, 1, 4, 2⟩) = true) ∧
    ¬ List.Chain' (fun a b => b.containsRange a = true)
      ((buildChain [⟨1, 1, 5, 9⟩, ⟨3, 1, 8, 9⟩] ⟨4, 1, 4, 2⟩).cur ::
        (buildChain [⟨1, 1, 5, 9⟩, ⟨3, 1, 8, 9⟩] ⟨4, 1, 4, 2⟩).nexts) := by
  refine ⟨by decide, by decide, fun h => ?_⟩
  have hlist : (buildChain [⟨1, 1, 5, 9⟩, ⟨3, 1, 8, 9⟩] ⟨4, 1, 4, 2⟩).cur ::
      (buildChain [⟨1, 1, 5, 9⟩, ⟨3, 1, 8, 9⟩] ⟨4, 1, 4, 2⟩).nexts =
      [⟨4, 1, 4, 2⟩, ⟨3, 1, 8, 9⟩, ⟨1, 1, 5, 9⟩] := by decide
  rw [hlist] at h
  rw [List.chain'_cons, List.chain'_cons] at h
  exact absurd h.2.1 (by decide)
